import Mathlib

/-!
Verification development for the reolink-feed repository.

The Lovelace card (`reolink-feed-card.js`), the storage migration script and
the seed script are embedded directly from their sources.  The Python backend
of the integration (burst merge engine, recording resolver, clip matcher) is
not part of the source tree; those components are modelled from the design
documents, and every such definition is marked `Modelled from the spec:` in
its doc comment.
-/

namespace ReolinkFeed

/-! ## Card label normalization (reolink-feed-card.js) -/

/-- ASCII lower-casing of one character, the effect of JavaScript
`toLowerCase()` on the label strings this card handles. -/
def lowerChar (c : Char) : Char :=
  if 'A' ≤ c ∧ c ≤ 'Z' then Char.ofNat (c.toNat + 32) else c

/-- Whitespace test used by `trim`. -/
def isWsChar (c : Char) : Bool :=
  c = ' ' || c = '\t' || c = '\n' || c = '\r'

/-- JavaScript `s.toLowerCase()` (ASCII fragment), char by char. -/
def jsToLower (s : String) : String := ⟨s.data.map lowerChar⟩

/-- JavaScript `s.trim()`: strip leading and trailing whitespace. -/
def jsTrim (s : String) : String :=
  ⟨((s.data.dropWhile isWsChar).reverse.dropWhile isWsChar).reverse⟩

/-- The `lowered` value inside `normalizeCardLabel`:
`String(label || "").toLowerCase().trim()`. -/
def lowerTrim (s : String) : String := jsTrim (jsToLower s)

/-- `SUPPORTED_CARD_LABELS` from the card source. -/
def SUPPORTED_CARD_LABELS : List String := ["person", "pet", "vehicle", "motion", "visitor"]

/-- `normalizeCardLabel` from the card source: lowercase, trim, then apply the
`LEGACY_CARD_LABEL_ALIASES` table (`animal` maps to `pet`). -/
def normalizeCardLabel (label : String) : String :=
  let lowered := lowerTrim label
  if lowered = "animal" then "pet" else lowered

/-- The `configuredLabels` computation inside `setConfig`: lowercase and trim the
configured labels, detect the legacy default pair (`person` + `animal`) which is
migrated to the empty list, otherwise normalize each label and keep only
supported ones. -/
def configuredLabels (labels : List String) : List String :=
  let rawLabels := labels.map lowerTrim
  let isLegacyDefaultLabels :=
    rawLabels.length = 2 ∧ "person" ∈ rawLabels ∧ "animal" ∈ rawLabels
  if isLegacyDefaultLabels then []
  else (rawLabels.map normalizeCardLabel).filter (fun l => l ∈ SUPPORTED_CARD_LABELS)

/-! ## Card pagination (reolink-feed-card.js) -/

/-- The result of the JavaScript coercion `Number(config.page_size ?? 20)`:
either a finite number (modelled as a rational) or one of the non-finite
values `NaN`, `Infinity`, `-Infinity`. -/
inductive JSNumber
  | nan
  | posInf
  | negInf
  | finite (q : ℚ)
deriving DecidableEq

/-- `_pageSize` from the card source: `20` when the coerced value is not
finite, otherwise `Math.max(1, Math.min(100, Math.floor(raw)))`. -/
def pageSizeOf (v : JSNumber) : Int :=
  match v with
  | .finite q => max 1 (min 100 ⌊q⌋)
  | _ => 20

/-- `_totalPages` from the card source:
`Math.max(1, Math.ceil(filteredItems.length / pageSize))`. -/
def totalPagesOf (len : Nat) (v : JSNumber) : Nat :=
  let ps := (pageSizeOf v).toNat
  if ps = 0 then 1 else max 1 ((len + ps - 1) / ps)

/-- `_pagedItems` from the card source: clamp the current page into
`[1, totalPages]` and slice `pageSize` entries starting at
`(page - 1) * pageSize`. -/
def pagedItemsOf {α : Type} (items : List α) (page : Int) (v : JSNumber) : List α :=
  let ps := (pageSizeOf v).toNat
  let p := max 1 (min page (totalPagesOf items.length v : Int))
  let start := ((p - 1) * (ps : Int)).toNat
  (items.drop start).take ps

/-! ## Migration script: duration token and media title (migrate script) -/

/-- Python `f"{n:02d}"` for a nonnegative integer: pad with a leading zero to
width two. -/
def pad2 (n : Nat) : String := if n < 10 then "0" ++ Nat.repr n else Nat.repr n

/-- `duration_token` from the migration script:
`f"{h}:{m:02d}:{s:02d}"` with `h = seconds // 3600`, `m = seconds % 3600 // 60`,
`s = seconds % 60`. -/
def duration_token (seconds : Nat) : String :=
  Nat.repr (seconds / 3600) ++ ":" ++ pad2 (seconds % 3600 / 60) ++ ":" ++ pad2 (seconds % 60)

/-- Python `clip_start.strftime("%H:%M:%S")`: each field zero-padded to two
digits. -/
def startTimeToken (h m s : Nat) : String :=
  pad2 h ++ ":" ++ pad2 m ++ ":" ++ pad2 s

/-- ASCII upper-casing of one character, used by the Python `str.title`
fallback. -/
def upperChar (c : Char) : Char :=
  if 'a' ≤ c ∧ c ≤ 'z' then Char.ofNat (c.toNat - 32) else c

/-- Whether a character counts as alphabetic for Python `str.title`. -/
def isAlphaChar (c : Char) : Bool :=
  ('a' ≤ c && c ≤ 'z') || ('A' ≤ c && c ≤ 'Z')

/-- Character-level worker for Python `str.title`: upper-case a letter that
does not follow a letter, lower-case one that does. -/
def pyTitleChars : List Char → Bool → List Char
  | [], _ => []
  | c :: cs, prevAlpha =>
    (if prevAlpha then lowerChar c else upperChar c) :: pyTitleChars cs (isAlphaChar c)

/-- Python `label.title() or "Person"` from the migration script. -/
def pyTitleOrPerson (label : String) : String :=
  if label = "" then "Person" else ⟨pyTitleChars label.data false⟩

/-- `label_title.get(label, label.title() or "Person")` from the migration
script: the fixed display-name table with the title-case fallback. -/
def label_title_of (label : String) : String :=
  if label = "person" then "Person"
  else if label = "pet" then "Pet"
  else if label = "vehicle" then "Vehicle"
  else if label = "motion" then "Motion"
  else if label = "visitor" then "Visitor"
  else pyTitleOrPerson label

/-- The `media_title` backfill in the migration script:
`f"{clip_start.strftime('%H:%M:%S')} {duration_token(duration_s)} {label_title.get(...)}"`,
with the clip start time broken into `(h, m, s)` fields. -/
def media_title (h m s duration_s : Nat) (label : String) : String :=
  startTimeToken h m s ++ " " ++ duration_token duration_s ++ " " ++ label_title_of label

/-! ## Burst Merge Engine (backend not in the source tree) -/

/-- Modelled from the spec: a timeline item as the burst merge engine sees it
(`start_ts`, `end_ts` null while open, merge counter incremented on reopen).
The backend module `feed.py` holding this logic is not part of the source
tree. -/
structure MergeItem where
  start_ts : Int
  end_ts : Option Int
  merge_count : Nat
deriving DecidableEq, Repr

/-- `duration_s`: derived, null while open, `end_ts − start_ts` once closed. -/
def MergeItem.duration_s (it : MergeItem) : Option Int :=
  it.end_ts.map (fun e => e - it.start_ts)

/-- A normalized edge for one `(camera_name, label)` key. -/
inductive MergeEdge
  | startEdge (t : Int)
  | endEdge (t : Int)
deriving DecidableEq, Repr

/-- Timestamp of an edge. -/
def MergeEdge.time : MergeEdge → Int
  | .startEdge t => t
  | .endEdge t => t

/-- Modelled from the spec: the per-key state of the burst merge engine.
`done` holds the closed items in creation order, `openItem` the open one if
any; `Closed(last_item_id_or_none)` corresponds to `openItem = none` with the
last element of `done` as the last item. -/
structure EngineState where
  done : List MergeItem
  openItem : Option MergeItem
deriving DecidableEq, Repr

/-- Initial per-key state `Closed(none)`. -/
def initState : EngineState := { done := [], openItem := none }

/-- Modelled from the spec: one burst-merge transition with
`merge_window_s = W`.  StartEdge while Closed reopens the last item when the
gap since its end is under the merge window (clearing `end_ts`, incrementing
the merge counter) and otherwise creates a fresh item; StartEdge while Open is
a no-op; EndEdge while Open closes the item at the edge's timestamp; EndEdge
while Closed is a no-op. -/
def mergeStep (W : Int) (s : EngineState) : MergeEdge → EngineState
  | .startEdge t =>
    match s.openItem with
    | some _ => s
    | none =>
      match s.done.getLast? with
      | some it =>
        match it.end_ts with
        | some b =>
          if t - b < W then
            { done := s.done.dropLast,
              openItem := some { it with end_ts := none, merge_count := it.merge_count + 1 } }
          else
            { done := s.done, openItem := some ⟨t, none, 0⟩ }
        | none => { done := s.done, openItem := some ⟨t, none, 0⟩ }
      | none => { done := s.done, openItem := some ⟨t, none, 0⟩ }
  | .endEdge t =>
    match s.openItem with
    | some it => { done := s.done ++ [{ it with end_ts := some t }], openItem := none }
    | none => s

/-- Run the engine over a sequence of edges for one key. -/
def runEngine (W : Int) (s : EngineState) (es : List MergeEdge) : EngineState :=
  es.foldl (mergeStep W) s

/-- A burst given as `(start, end)` pulses, flattened to alternating edges. -/
def pulsesToEdges : List (Int × Int) → List MergeEdge
  | [] => []
  | p :: ps => .startEdge p.1 :: .endEdge p.2 :: pulsesToEdges ps

/-- Edge timestamps are applied in event-time order within one key. -/
def edgesMonotone (es : List MergeEdge) : Prop :=
  List.Chain' (fun a b => MergeEdge.time a ≤ MergeEdge.time b) es

/-- Run invariant: every closed item has a well-ordered `[start_ts, end_ts]`
bounded by the last processed timestamp, and the open item (if any) has no
`end_ts` and a bounded `start_ts`. -/
def StateOK (bound : Int) (s : EngineState) : Prop :=
  (∀ it ∈ s.done, ∃ e, it.end_ts = some e ∧ it.start_ts ≤ e ∧ e ≤ bound) ∧
  (∀ it, s.openItem = some it → it.end_ts = none ∧ it.start_ts ≤ bound)

/-! ## Recording Resolver (backend not in the source tree) -/

/-- `recording.status` values. -/
inductive RecStatus
  | pending
  | linked
  | notFound
  | downloadFailed
deriving DecidableEq, Repr

/-- Outcome of one clip-matching attempt. -/
inductive AttemptOutcome
  | matched
  | noMatch
  | downloadError
deriving DecidableEq, Repr

/-- Modelled from the spec: one resolver attempt on an item.  Attempts only act
on `pending` items (terminal statuses are absorbing; resolution is cancelled
once terminal).  A match links, a failed retrieval of a matched clip is
`downloadFailed`, and a non-match keeps `pending` unless the schedule is
exhausted or the caller forced `final_attempt`, in which case the item becomes
`notFound`.  The backend resolver module is not part of the source tree. -/
def attemptStep (s : RecStatus) (r : AttemptOutcome) (isLastScheduled finalAttempt : Bool) :
    RecStatus :=
  match s with
  | .pending =>
    match r with
    | .matched => .linked
    | .noMatch => if isLastScheduled || finalAttempt then .notFound else .pending
    | .downloadError => .downloadFailed
  | other => other

/-- Modelled from the spec: the explicit manual reset re-enters the resolution
pipeline from the start. -/
def resetStep (_ : RecStatus) : RecStatus := .pending

/-- 0 for `pending`, 1 for the terminal statuses: the forward direction of the
status lattice. -/
def statusRank : RecStatus → Nat
  | .pending => 0
  | _ => 1

/-- The WebSocket request sent by `_refreshRecording` in the card source:
`{ type: "reolink_feed/resolve_recording", item_id, final_attempt }`. -/
structure ResolveRequest where
  reqType : String
  item_id : String
  final_attempt : Bool
deriving DecidableEq, Repr

/-- `_refreshRecording(item, showToast, showSpinner, finalAttempt)` issues this
request (the toast/spinner arguments do not reach the wire). -/
def refreshRecordingRequest (itemId : String) (finalAttempt : Bool) : ResolveRequest :=
  { reqType := "reolink_feed/resolve_recording", item_id := itemId, final_attempt := finalAttempt }

/-- The card's reset action (`button.reset-info` click handler) calls
`_refreshRecording(currentInfoItem, true, true, true)`: one request with
`final_attempt` set. -/
def resetInfoClickRequest (itemId : String) : ResolveRequest :=
  refreshRecordingRequest itemId true

/-! ## Clip Matcher scoring (backend not in the source tree) -/

/-- A search window `[lo, hi]` in seconds. -/
structure Window where
  lo : Int
  hi : Int
deriving DecidableEq, Repr

/-- A candidate clip parsed from a catalog entry name:
`[clip_start, clip_start + clip_duration]`. -/
structure Clip where
  clip_start : Int
  clip_duration : Int
deriving DecidableEq, Repr

/-- Overlap in seconds between the clip interval and the window (may be
negative or zero when they do not meet). -/
def clipOverlap (w : Window) (c : Clip) : Int :=
  min (c.clip_start + c.clip_duration) w.hi - max c.clip_start w.lo

/-- Modelled from the spec: keep the candidate with the largest positive
overlap seen so far; candidates without positive overlap never displace the
running best. -/
def pickBetter (w : Window) (best : Option Clip) (c : Clip) : Option Clip :=
  if 0 < clipOverlap w c then
    match best with
    | none => some c
    | some b => if clipOverlap w b < clipOverlap w c then some c else some b
  else best

/-- Modelled from the spec: Clip Matcher scoring — the candidate with the
largest positive overlap with the window wins. -/
def bestByOverlap (w : Window) (cs : List Clip) : Option Clip :=
  cs.foldl (pickBetter w) none

/-- Distance of a clip's start from the window start, for the fallback rule. -/
def startDistance (w : Window) (c : Clip) : Int :=
  |c.clip_start - w.lo|

/-- Modelled from the spec: fallback — the candidate whose `clip_start` is
nearest `window.start`, kept only when within the slack bound. -/
def pickNearer (w : Window) (best : Option Clip) (c : Clip) : Option Clip :=
  match best with
  | none => some c
  | some b => if startDistance w c < startDistance w b then some c else some b

/-- Modelled from the spec: full `match` contract — largest positive overlap,
else nearest start within `slack`, else none. -/
def matchClip (w : Window) (slack : Int) (cs : List Clip) : Option Clip :=
  match bestByOverlap w cs with
  | some c => some c
  | none =>
    match cs.foldl (pickNearer w) none with
    | some c => if startDistance w c ≤ slack then some c else none
    | none => none

/-- A clip lies fully inside the window. -/
def clipInsideWindow (w : Window) (c : Clip) : Prop :=
  w.lo ≤ c.clip_start ∧ c.clip_start + c.clip_duration ≤ w.hi

/-- A clip overlaps the window but does not lie fully inside it. -/
def clipPartialOverlap (w : Window) (c : Clip) : Prop :=
  0 < clipOverlap w c ∧ ¬ clipInsideWindow w c

/-! ## Catalog display path (reolink-feed-card.js) -/

/-- The `labelTitleByLabel` table inside `_mediaFolderDisplayPath`, with the
`|| "Person"` default. -/
def labelTitleByLabel (label : String) : String :=
  if label = "person" then "Person"
  else if label = "pet" then "Pet"
  else if label = "vehicle" then "Vehicle"
  else if label = "motion" then "Motion"
  else if label = "visitor" then "Visitor"
  else "Person"

/-- `item?.camera_name || "Camera"`. -/
def cameraOrDefault (cameraName : String) : String :=
  if cameraName = "" then "Camera" else cameraName

/-- `_mediaFolderDisplayPath` from the card source, with the item's start date
broken into `(year, month, day)` local-calendar fields (the JavaScript
`getFullYear`, `getMonth() + 1` and `getDate()` values):
`/Reolink/<camera>/Low Resolution/<year>-<MM>-<DD>/<labelTitle>`. -/
def mediaFolderDisplayPath (year month day : Nat) (label cameraName : String) : String :=
  "/Reolink/" ++ cameraOrDefault cameraName ++ "/Low Resolution/" ++
    Nat.repr year ++ "-" ++ pad2 month ++ "-" ++ pad2 day ++ "/" ++
    labelTitleByLabel (normalizeCardLabel label)

/-- The path shape asserted by the spec for catalog browsing:
`<camera_name>/<resolution_tier>/<year>/<month>/<day>/<label_folder>` with
separate year, month and day components.  Stated from the spec's words for
comparison with `mediaFolderDisplayPath`. -/
def specCatalogPathShape (camera tier : String) (year month day : Nat)
    (labelFolder : String) : String :=
  camera ++ "/" ++ tier ++ "/" ++ Nat.repr year ++ "/" ++ Nat.repr month ++ "/" ++
    Nat.repr day ++ "/" ++ labelFolder

/-- Splitting worker: accumulate the current component (reversed) while
scanning for the separator. -/
def splitOnCharAux (sep : Char) : List Char → List Char → List (List Char)
  | [], acc => [acc.reverse]
  | c :: cs, acc =>
    if c = sep then acc.reverse :: splitOnCharAux sep cs []
    else splitOnCharAux sep cs (c :: acc)

/-- The `/`-separated components of a path string. -/
def pathComponents (s : String) : List String :=
  (splitOnCharAux '/' s.data []).map (fun l => ⟨l⟩)

/-! ## Download filename safety (reolink-feed-card.js) -/

/-- A character rejected by `_isPlausibleFilename`'s first regex:
`[\\/:*?"<>|]` or a C0 control character. -/
def isBadFileChar (c : Char) : Bool :=
  c = '\\' || c = '/' || c = ':' || c = '*' || c = '?' || c = '"' ||
    c = '<' || c = '>' || c = '|' || decide (c.toNat < 32)

/-- A character allowed by `^[\w .\-()]+$` (case-insensitive): word
characters, space, dot, hyphen, parentheses. -/
def isWordLikeChar (c : Char) : Bool :=
  ('a' ≤ c && c ≤ 'z') || ('A' ≤ c && c ≤ 'Z') || ('0' ≤ c && c ≤ '9') ||
    c = '_' || c = ' ' || c = '.' || c = '-' || c = '(' || c = ')'

/-- A character allowed inside the extension `[a-z0-9]{2,5}` (case
insensitive). -/
def isExtChar (c : Char) : Bool :=
  ('a' ≤ c && c ≤ 'z') || ('A' ≤ c && c ≤ 'Z') || ('0' ≤ c && c ≤ '9')

/-- Whether the reversed character list ends (in original order) with `.`
followed by exactly `k` extension characters. -/
def extOk (rev : List Char) (k : Nat) : Bool :=
  decide ((rev.take k).length = k) && (rev.take k).all isExtChar &&
    ((rev.drop k).head? = some '.')

/-- The regex `\.[a-z0-9]{2,5}$`: some `k` between 2 and 5 works. -/
def hasValidExt (l : List Char) : Bool :=
  [2, 3, 4, 5].any (extOk l.reverse)

/-- `_isPlausibleFilename` from the card source: non-empty, length 3–255, no
path separators / colons / wildcards / angle brackets / pipes / control
characters, a 2–5 character extension, and only word-like characters. -/
def isPlausibleFilename (name : String) : Bool :=
  let l := name.data
  if l.length = 0 then false
  else if l.length < 3 || 255 < l.length then false
  else if l.any isBadFileChar then false
  else if !(hasValidExt l) then false
  else if !(l.all isWordLikeChar) then false
  else true

/-- The item fields consumed by `_recordingFilename`: the optional
`recording.local_url`, the local broken-down start date/time, and the raw
label. -/
structure CardItem where
  local_url : Option String
  year : Nat
  month : Nat
  day : Nat
  hour : Nat
  minute : Nat
  second : Nat
  label : String
deriving DecidableEq, Repr

/-- `url.split("?")[0]`: the part before the first question mark. -/
def beforeQuery (l : List Char) : List Char :=
  l.takeWhile (fun c => !(c = '?'))

/-- `.split("/").pop() || ""`: the segment after the last slash. -/
def lastSegment (l : List Char) : List Char :=
  (l.reverse.takeWhile (fun c => !(c = '/'))).reverse

/-- `localUrl.split("?")[0].split("/").pop() || ""` from
`_recordingFilename`. -/
def urlFilename (url : String) : String :=
  ⟨lastSegment (beforeQuery url.data)⟩

/-- `_fileExtensionForLabel` from the card source (every branch returns
`"mp4"`). -/
def fileExtensionForLabel (label : String) : String :=
  if label = "motion" then "mp4"
  else if label = "vehicle" then "mp4"
  else if label = "visitor" then "mp4"
  else if label = "pet" then "mp4"
  else "mp4"

/-- `normalizeCardLabel(item?.label) || "detection"`. -/
def filenameLabel (label : String) : String :=
  if normalizeCardLabel label = "" then "detection" else normalizeCardLabel label

/-- The generated fallback filename in `_recordingFilename`:
`${yyyy}${mm}${dd}_${hh}${mi}${ss}_${label}.${ext}`. -/
def generatedFilename (it : CardItem) : String :=
  Nat.repr it.year ++ pad2 it.month ++ pad2 it.day ++ "_" ++
    pad2 it.hour ++ pad2 it.minute ++ pad2 it.second ++ "_" ++
    filenameLabel it.label ++ "." ++ fileExtensionForLabel (filenameLabel it.label)

/-- `_recordingFilename` from the card source: prefer the last URL segment of
`recording.local_url` when it is a plausible filename, otherwise generate
`YYYYMMDD_HHMMSS_<label>.mp4` from the start date and normalized label. -/
def recordingFilename (it : CardItem) : String :=
  match it.local_url with
  | some u =>
    if u ≠ "" ∧ isPlausibleFilename (urlFilename u) = true then urlFilename u
    else generatedFilename it
  | none => generatedFilename it

/-- A path separator or control character — the characters the generated
filename must never contain. -/
def isPathOrControlChar (c : Char) : Bool :=
  c = '/' || c = '\\' || decide (c.toNat < 32)

/-! ## Seed script items (seed script source) -/

/-- One persisted feed item as written by the seed script. -/
structure SeedItem where
  start_ts : Int
  end_ts : Int
  duration_s : Int
  label : String
  camera_name : String
  source_entity_id : String
  recording_status : String
deriving DecidableEq, Repr

/-- `labels = ("person", "visitor")` in the seed script. -/
def seedLabels : List String := ["person", "visitor"]

/-- `cameras = ("Deurbel", "Tuinhuis")` in the seed script. -/
def seedCameras : List String := ["Deurbel", "Tuinhuis"]

/-- The `sources` table in the seed script. -/
def seedSource (camera label : String) : String :=
  if camera = "Deurbel" then
    if label = "person" then "binary_sensor.deurbel_person"
    else "binary_sensor.deurbel_visitor"
  else
    if label = "person" then "binary_sensor.tuinhuis_person"
    else "binary_sensor.tuinhuis_visitor"

/-- One iteration of the seed item construction loop, with `now` in epoch
seconds: `started = now − ((idx*3 + 1) minutes + idx seconds)`,
`duration_s = 6 + idx % 10`, `ended = started + duration_s`. -/
def seedItem (now : Int) (idx : Nat) : SeedItem :=
  let label := seedLabels.getD (idx % seedLabels.length) "person"
  let camera := seedCameras.getD (idx % seedCameras.length) "Deurbel"
  let started := now - (((idx : Int) * 3 + 1) * 60 + (idx : Int))
  let dur : Int := 6 + ((idx % 10 : Nat) : Int)
  { start_ts := started
    end_ts := started + dur
    duration_s := dur
    label := label
    camera_name := camera
    source_entity_id := seedSource camera label
    recording_status := "not_found" }

/-- The full seeded collection `for idx in range(count)`. -/
def seedItems (now : Int) (count : Nat) : List SeedItem :=
  (List.range count).map (seedItem now)

/-- Insert an item into a list kept in descending `start_ts` order, after any
earlier item with the same key (the stable placement of
`sort(key=start_ts, reverse=True)`). -/
def insertByStartDesc (x : SeedItem) : List SeedItem → List SeedItem
  | [] => [x]
  | y :: ys => if y.start_ts < x.start_ts then x :: y :: ys else y :: insertByStartDesc x ys

/-- The newest-first ordering applied before persisting (seed script) and
required of the `reolink_feed/list` response: stable descending sort by
`start_ts`. -/
def sortByStartDesc (l : List SeedItem) : List SeedItem :=
  l.foldr insertByStartDesc []

/-! ## Helper lemmas -/

/-- Every character placed by `Nat.toDigitsCore` base 10 is a decimal digit
character or came from the accumulator. -/
theorem toDigitsCore_chars : ∀ (fuel n : Nat) (acc : List Char) (c : Char),
    c ∈ Nat.toDigitsCore 10 fuel n acc → c ∈ acc ∨ ∃ d, d < 10 ∧ c = Nat.digitChar d := by
  intro fuel
  induction fuel with
  | zero =>
    intro n acc c hc
    exact .inl hc
  | succ fuel ih =>
    intro n acc c hc
    rw [Nat.toDigitsCore] at hc
    by_cases hz : n / 10 = 0
    · simp only [hz, if_pos] at hc
      rcases List.mem_cons.mp hc with h | h
      · exact .inr ⟨n % 10, Nat.mod_lt _ (by omega), h⟩
      · exact .inl h
    · simp only [hz, if_neg, if_false] at hc
      rcases ih (n / 10) (Nat.digitChar (n % 10) :: acc) c hc with h | h
      · rcases List.mem_cons.mp h with h1 | h1
        · exact .inr ⟨n % 10, Nat.mod_lt _ (by omega), h1⟩
        · exact .inl h1
      · exact .inr h
/-- Every character of `Nat.repr n` is a decimal digit character. -/
theorem repr_chars (n : Nat) :
    ∀ c ∈ (Nat.repr n).data, ∃ d, d < 10 ∧ c = Nat.digitChar d := by
  intro c hc
  have h : c ∈ Nat.toDigitsCore 10 (n + 1) n [] := by
    simpa [Nat.repr, Nat.toDigits, List.asString] using hc
  rcases toDigitsCore_chars (n + 1) n [] c h with h1 | h1
  · cases h1
  · exact h1

/-- Decimal digit characters are never the path separator. -/
theorem digitChar_ne_slash : ∀ d, d < 10 → Nat.digitChar d ≠ '/' := by decide

/-- Decimal digit characters are neither path separators nor control
characters. -/
theorem digitChar_not_pathControl : ∀ d, d < 10 → isPathOrControlChar (Nat.digitChar d) = false := by
  decide

/-- Every character of `pad2 n` is a decimal digit character. -/
theorem pad2_chars (n : Nat) :
    ∀ c ∈ (pad2 n).data, ∃ d, d < 10 ∧ c = Nat.digitChar d := by
  intro c hc
  unfold pad2 at hc
  split at hc
  · rcases (by simpa [String.data_append] using hc : c = '0' ∨ c ∈ (Nat.repr n).data) with h | h
    · exact ⟨0, by omega, h.trans (by decide)⟩
    · exact repr_chars n c h
  · exact repr_chars n c hc

/-- `pad2` yields exactly two characters below 100. -/
theorem pad2_length : ∀ n, n < 100 → (pad2 n).length = 2 := by decide

/-- One-digit numbers print as one character (no zero padding). -/
theorem repr_length_lt10 : ∀ n, n < 10 → (Nat.repr n).length = 1 := by decide

/-! ## C8: label normalization -/

/-- C8: label normalization applies the fixed alias table and discards labels
outside the known set — `normalizeCardLabel` lowercases and trims its input
and maps the legacy `animal` to `pet`, leaving every other lowered-trimmed
label unchanged; and `setConfig` keeps only configured labels whose normalized
form is in `SUPPORTED_CARD_LABELS`. -/
theorem normalizeCardLabel_alias_and_filter :
    (∀ s : String,
      (lowerTrim s = "animal" → normalizeCardLabel s = "pet") ∧
      (lowerTrim s ≠ "animal" → normalizeCardLabel s = lowerTrim s)) ∧
    (∀ labels : List String, ∀ l ∈ configuredLabels labels, l ∈ SUPPORTED_CARD_LABELS) := by
  refine ⟨fun s => ⟨fun h => ?_, fun h => ?_⟩, fun labels l hl => ?_⟩
  · simp [normalizeCardLabel, h]
  · simp [normalizeCardLabel, h]
  · simp only [configuredLabels] at hl
    split at hl
    · simp at hl
    · simp only [List.mem_filter, decide_eq_true_eq] at hl
      exact hl.2

/-- Witness: the alias maps `" Animal "` to `pet`, and a configured `"Animal"`
survives the filter as the supported `pet`. -/
theorem normalizeCardLabel_alias_and_filter_witness :
    normalizeCardLabel " Animal " = "pet" ∧ "pet" ∈ SUPPORTED_CARD_LABELS :=
  ⟨(normalizeCardLabel_alias_and_filter.1 " Animal ").1 (by decide),
   normalizeCardLabel_alias_and_filter.2 ["Animal"] "pet" (by decide)⟩

/-! ## C9: pagination totality and bounds -/

/-- C9: pagination is total and bounded — `_pageSize` always lands in
`[1, 100]` and is `20` on every non-finite configuration value, `_totalPages`
is at least `1`, and `_pagedItems` never returns more than `_pageSize()`
items, whatever the current page number is. -/
theorem pagination_total_bounded :
    (∀ v : JSNumber, 1 ≤ pageSizeOf v ∧ pageSizeOf v ≤ 100) ∧
    pageSizeOf .nan = 20 ∧ pageSizeOf .posInf = 20 ∧ pageSizeOf .negInf = 20 ∧
    (∀ (len : Nat) (v : JSNumber), 1 ≤ totalPagesOf len v) ∧
    (∀ (α : Type) (items : List α) (page : Int) (v : JSNumber),
      (pagedItemsOf items page v).length ≤ (pageSizeOf v).toNat) := by
  refine ⟨?_, rfl, rfl, rfl, ?_, ?_⟩
  · intro v
    cases v
    case finite q => exact ⟨le_max_left _ _, max_le (by norm_num) (min_le_left _ _)⟩
    all_goals exact ⟨by decide, by decide⟩
  · intro len v
    simp only [totalPagesOf]
    split
    · exact le_refl 1
    · exact Nat.le_max_left 1 _
  · intro α items page v
    simp only [pagedItemsOf, List.length_take, List.length_drop]
    exact Nat.min_le_left _ _

/-! ## C2: recording status transitions -/

/-- C2: `recording.status` only moves forward along
`pending → {linked, not_found, download_failed}` — no resolver attempt
produces `pending` from a terminal status, the explicit manual reset is the
only way back to `pending`, the card's reset action issues one
`resolve_recording` request with `final_attempt` set, and a non-match on a
`final_attempt` request is terminal (`notFound`), never `pending`. -/
theorem recording_status_forward_only :
    (∀ (s : RecStatus) (r : AttemptOutcome) (l f : Bool),
      attemptStep s r l f = .pending → s = .pending) ∧
    (∀ (s : RecStatus) (r : AttemptOutcome) (l f : Bool),
      statusRank s ≤ statusRank (attemptStep s r l f)) ∧
    (∀ s : RecStatus, resetStep s = .pending) ∧
    (∀ itemId : String,
      (resetInfoClickRequest itemId).final_attempt = true ∧
      (resetInfoClickRequest itemId).reqType = "reolink_feed/resolve_recording") ∧
    (∀ (r : AttemptOutcome) (l : Bool), attemptStep .pending r l true ≠ .pending) ∧
    (∀ l : Bool, attemptStep .pending .noMatch l true = .notFound) := by
  refine ⟨?_, ?_, fun s => rfl, fun i => ⟨rfl, rfl⟩, ?_, ?_⟩
  · intro s r l f h
    cases s
    case pending => rfl
    all_goals exact RecStatus.noConfusion h
  · intro s r l f
    cases s
    case pending => exact Nat.zero_le _
    all_goals exact Nat.le_refl 1
  · intro r l
    cases r <;> cases l <;> exact fun h => RecStatus.noConfusion h
  · intro l
    cases l <;> rfl

/-- Witness: a non-final non-match keeps `pending` only from `pending`, and a
`final_attempt` non-match lands in `notFound`. -/
theorem recording_status_forward_only_witness :
    RecStatus.pending = RecStatus.pending ∧
    attemptStep .pending .noMatch false true = .notFound :=
  ⟨recording_status_forward_only.1 .pending .noMatch false false (by decide),
   recording_status_forward_only.2.2.2.2.2 false⟩

/-! ## Burst merge engine lemmas -/

/-- StartEdge while Open is a no-op. -/
theorem mergeStep_start_open (W t : Int) (done : List MergeItem) (it : MergeItem) :
    mergeStep W ⟨done, some it⟩ (.startEdge t) = ⟨done, some it⟩ := rfl

/-- StartEdge while Closed with no previous item creates a fresh item. -/
theorem mergeStep_start_noLast (W t : Int) (done : List MergeItem)
    (hl : done.getLast? = none) :
    mergeStep W ⟨done, none⟩ (.startEdge t) = ⟨done, some ⟨t, none, 0⟩⟩ := by
  unfold mergeStep
  rw [hl]

/-- StartEdge while Closed with a last item that is (incoherently) open also
creates a fresh item. -/
theorem mergeStep_start_lastOpen (W t : Int) (done : List MergeItem) (it : MergeItem)
    (hl : done.getLast? = some it) (hend : it.end_ts = none) :
    mergeStep W ⟨done, none⟩ (.startEdge t) = ⟨done, some ⟨t, none, 0⟩⟩ := by
  unfold mergeStep
  rw [hl]
  dsimp only
  rw [hend]

/-- StartEdge while Closed within the merge window reopens the last item. -/
theorem mergeStep_start_merge (W t b : Int) (done : List MergeItem) (it : MergeItem)
    (hl : done.getLast? = some it) (hend : it.end_ts = some b) (hgap : t - b < W) :
    mergeStep W ⟨done, none⟩ (.startEdge t) =
      ⟨done.dropLast, some ⟨it.start_ts, none, it.merge_count + 1⟩⟩ := by
  unfold mergeStep
  rw [hl]
  dsimp only
  rw [hend]
  dsimp only
  rw [if_pos hgap]

/-- StartEdge while Closed outside the merge window creates a fresh item. -/
theorem mergeStep_start_fresh (W t b : Int) (done : List MergeItem) (it : MergeItem)
    (hl : done.getLast? = some it) (hend : it.end_ts = some b) (hgap : ¬ t - b < W) :
    mergeStep W ⟨done, none⟩ (.startEdge t) = ⟨done, some ⟨t, none, 0⟩⟩ := by
  unfold mergeStep
  rw [hl]
  dsimp only
  rw [hend]
  dsimp only
  rw [if_neg hgap]

/-- EndEdge while Open closes the open item at the edge's timestamp. -/
theorem mergeStep_end_open (W t : Int) (done : List MergeItem) (it : MergeItem) :
    mergeStep W ⟨done, some it⟩ (.endEdge t) =
      ⟨done ++ [⟨it.start_ts, some t, it.merge_count⟩], none⟩ := rfl

/-- EndEdge while Closed is a no-op. -/
theorem mergeStep_end_closed (W t : Int) (done : List MergeItem) :
    mergeStep W ⟨done, none⟩ (.endEdge t) = ⟨done, none⟩ := rfl

/-- One transition preserves the run invariant when the edge does not move
time backwards. -/
theorem mergeStep_stateOK {W b : Int} {s : EngineState} (hs : StateOK b s)
    (e : MergeEdge) (he : b ≤ e.time) : StateOK e.time (mergeStep W s e) := by
  obtain ⟨done, oi⟩ := s
  obtain ⟨hdone, hopen⟩ := hs
  have hmono : ∀ x ∈ done, ∃ e0, x.end_ts = some e0 ∧ x.start_ts ≤ e0 ∧ e0 ≤ e.time :=
    fun x hx => by
      obtain ⟨e0, h1, h2, h3⟩ := hdone x hx
      exact ⟨e0, h1, h2, le_trans h3 he⟩
  cases e with
  | startEdge t =>
    simp only [MergeEdge.time] at he hmono
    cases oi with
    | some it =>
      rw [mergeStep_start_open]
      refine ⟨hmono, fun x hx => ?_⟩
      obtain ⟨h1, h2⟩ := hopen x hx
      exact ⟨h1, le_trans h2 he⟩
    | none =>
      cases hl : done.getLast? with
      | none =>
        rw [mergeStep_start_noLast W t done hl]
        refine ⟨hmono, fun x hx => ?_⟩
        cases hx
        exact ⟨rfl, le_refl t⟩
      | some it =>
        cases hend : it.end_ts with
        | none =>
          rw [mergeStep_start_lastOpen W t done it hl hend]
          refine ⟨hmono, fun x hx => ?_⟩
          cases hx
          exact ⟨rfl, le_refl t⟩
        | some bEnd =>
          by_cases hgap : t - bEnd < W
          · rw [mergeStep_start_merge W t bEnd done it hl hend hgap]
            refine ⟨fun x hx => hmono x (List.dropLast_subset done hx), fun x hx => ?_⟩
            cases hx
            obtain ⟨e0, h1, h2, h3⟩ := hdone it (List.mem_of_getLast?_eq_some hl)
            rw [hend] at h1
            injection h1 with h1
            subst h1
            exact ⟨rfl, le_trans (le_trans h2 h3) he⟩
          · rw [mergeStep_start_fresh W t bEnd done it hl hend hgap]
            refine ⟨hmono, fun x hx => ?_⟩
            cases hx
            exact ⟨rfl, le_refl t⟩
  | endEdge t =>
    simp only [MergeEdge.time] at he hmono
    cases oi with
    | some it =>
      rw [mergeStep_end_open]
      refine ⟨fun x hx => ?_, fun x hx => ?_⟩
      · rcases List.mem_append.mp hx with h | h
        · exact hmono x h
        · obtain ⟨h1, h2⟩ := hopen it rfl
          rcases List.mem_singleton.mp h with rfl
          exact ⟨t, rfl, le_trans h2 he, le_refl t⟩
      · cases hx
    | none =>
      rw [mergeStep_end_closed]
      refine ⟨hmono, fun x hx => ?_⟩
      obtain ⟨h1, h2⟩ := hopen x hx
      exact ⟨h1, le_trans h2 he⟩

/-- The invariant survives a whole run whose edges are time-ordered after the
initial bound. -/
theorem runEngine_stateOK (W : Int) :
    ∀ (es : List MergeEdge) (b : Int) (s : EngineState),
      StateOK b s → List.Chain (fun x y : Int => x ≤ y) b (es.map MergeEdge.time) →
      ∃ b', StateOK b' (runEngine W s es) := by
  intro es
  induction es with
  | nil =>
    intro b s hs _
    exact ⟨b, hs⟩
  | cons e es ih =>
    intro b s hs hch
    cases hch with
    | cons hbe hch => exact ih e.time (mergeStep W s e) (mergeStep_stateOK hs e hbe) hch

/-- Processing a well-gapped pulse train from a closed state with one trailing
item reopens and recloses that same item, extending its `end_ts` to the last
pulse's end and counting a merge per pulse. -/
theorem runEngine_pulses_from_closed (W : Int) (front : List MergeItem) (s0 : Int) :
    ∀ (ps : List (Int × Int)) (x : Int × Int) (k : Nat),
      List.Chain (fun a b : Int × Int => b.1 - a.2 < W) x ps →
      runEngine W { done := front ++ [⟨s0, some x.2, k⟩], openItem := none } (pulsesToEdges ps) =
        { done := front ++ [⟨s0, some ((x :: ps).getLast (List.cons_ne_nil x ps)).2,
            k + ps.length⟩],
          openItem := none } := by
  intro ps
  induction ps with
  | nil =>
    intro x k _
    simp [runEngine, pulsesToEdges]
  | cons p qs ih =>
    intro x k hch
    cases hch with
    | cons hgap hch =>
      have h1 : mergeStep W { done := front ++ [⟨s0, some x.2, k⟩], openItem := none }
          (.startEdge p.1) = { done := front, openItem := some ⟨s0, none, k + 1⟩ } := by
        rw [mergeStep_start_merge W p.1 x.2 (front ++ [⟨s0, some x.2, k⟩]) ⟨s0, some x.2, k⟩
          (List.getLast?_concat front) rfl hgap]
        rw [List.dropLast_concat]
      have hrun : runEngine W { done := front ++ [⟨s0, some x.2, k⟩], openItem := none }
          (pulsesToEdges (p :: qs)) =
          runEngine W { done := front ++ [⟨s0, some p.2, k + 1⟩], openItem := none }
            (pulsesToEdges qs) := by
        simp only [pulsesToEdges, runEngine, List.foldl_cons, h1]
        rfl
      rw [hrun, ih p (k + 1) hch]
      have hlast : ((x :: p :: qs).getLast (List.cons_ne_nil x (p :: qs))).2 =
          ((p :: qs).getLast (List.cons_ne_nil p qs)).2 := by
        rw [List.getLast_cons (List.cons_ne_nil p qs)]
      have harith : k + 1 + qs.length = k + (qs.length + 1) := by omega
      rw [hlast, List.length_cons, harith]

/-! ## C1: single merged item per well-gapped burst -/

/-- C1: for every alternating `(start, end)` pulse train on one key in which
every gap between an end edge and the following start edge is strictly under
`merge_window_s`, the burst merge engine ends with exactly one item whose
`start_ts` is the first start edge and whose `end_ts` is the last end edge
(with one merge counted per reopening). -/
theorem burst_merge_single_item (W : Int) (p : Int × Int) (rest : List (Int × Int))
    (hgaps : List.Chain (fun a b : Int × Int => b.1 - a.2 < W) p rest) :
    runEngine W initState (pulsesToEdges (p :: rest)) =
      { done := [⟨p.1, some (((p :: rest).getLast (List.cons_ne_nil p rest)).2), rest.length⟩],
        openItem := none } := by
  have h0 : runEngine W initState (pulsesToEdges (p :: rest)) =
      runEngine W { done := [⟨p.1, some p.2, 0⟩], openItem := none } (pulsesToEdges rest) := by
    simp only [pulsesToEdges, runEngine, List.foldl_cons]
    rfl
  rw [h0]
  have h1 := runEngine_pulses_from_closed W [] p.1 rest p 0 hgaps
  simpa using h1

/-- Witness: the spec's end-to-end scenario — pulses at `[0, 5]` and
`[15, 20]` with a 10 s gap under the 20 s window merge into the single item
`[0, 20]` of duration 20. -/
theorem burst_merge_single_item_witness :
    runEngine 20 initState (pulsesToEdges [(0, 5), (15, 20)]) =
      { done := [⟨0, some 20, 1⟩], openItem := none } ∧
    MergeItem.duration_s ⟨0, some 20, 1⟩ = some 20 :=
  ⟨burst_merge_single_item 20 (0, 5) [(15, 20)]
      (List.Chain.cons (by decide) List.Chain.nil),
   by decide⟩

/-! ## C6: closed items are well-formed -/

/-- C6: every closed item satisfies `start_ts ≤ end_ts` and
`duration_s = end_ts − start_ts` — every item built by the seed generator has
`end_ts = start_ts + duration_s` with `duration_s ≥ 0`, and every closed item
produced by a time-ordered run of the burst merge engine has
`start_ts ≤ end_ts` with the derived duration. -/
theorem closed_item_duration_invariant :
    (∀ (now : Int) (count : Nat), ∀ it ∈ seedItems now count,
      it.end_ts = it.start_ts + it.duration_s ∧
      0 ≤ it.duration_s ∧
      it.start_ts ≤ it.end_ts) ∧
    (∀ (W : Int) (es : List MergeEdge), edgesMonotone es →
      ∀ it ∈ (runEngine W initState es).done,
        ∃ e, it.end_ts = some e ∧ it.start_ts ≤ e ∧ it.duration_s = some (e - it.start_ts)) := by
  constructor
  · intro now count it hit
    simp only [seedItems, List.mem_map, List.mem_range] at hit
    obtain ⟨idx, -, rfl⟩ := hit
    refine ⟨rfl, ?_, ?_⟩ <;> simp [seedItem] <;> omega
  · intro W es hmon it hit
    have hok : ∃ b', StateOK b' (runEngine W initState es) := by
      cases es with
      | nil => exact ⟨0, fun x hx => absurd hx (by simp [runEngine, initState]),
          fun x hx => Option.noConfusion hx⟩
      | cons e es' =>
        refine runEngine_stateOK W (e :: es') e.time initState
          ⟨fun x hx => absurd hx (by simp [initState]),
           fun x hx => Option.noConfusion hx⟩ ?_
        exact List.Chain.cons (le_refl _) ((List.chain_map MergeEdge.time).mpr hmon)
    obtain ⟨b', hdone, -⟩ := hok
    obtain ⟨e, h1, h2, -⟩ := hdone it hit
    exact ⟨e, h1, h2, by simp [MergeItem.duration_s, h1]⟩

/-- Witness: the run over edges at times 0 and 5 closes the item `[0, 5]`,
which satisfies the closed-item shape. -/
theorem closed_item_duration_invariant_witness :
    ((seedItem 1000 0).end_ts = (seedItem 1000 0).start_ts + (seedItem 1000 0).duration_s ∧
      0 ≤ (seedItem 1000 0).duration_s ∧
      (seedItem 1000 0).start_ts ≤ (seedItem 1000 0).end_ts) ∧
    ∃ e, (MergeItem.mk 0 (some 5) 0).end_ts = some e ∧
      (MergeItem.mk 0 (some 5) 0).start_ts ≤ e ∧
      (MergeItem.mk 0 (some 5) 0).duration_s = some (e - (MergeItem.mk 0 (some 5) 0).start_ts) :=
  ⟨closed_item_duration_invariant.1 1000 1 (seedItem 1000 0) (by decide),
   closed_item_duration_invariant.2 20 [.startEdge 0, .endEdge 5]
     (List.Chain.cons (by decide) List.Chain.nil) ⟨0, some 5, 0⟩ (by decide)⟩

/-! ## C7: list items newest first -/

/-- Inserting keeps the list a permutation of the element plus the old list. -/
theorem insertByStartDesc_perm (x : SeedItem) :
    ∀ l : List SeedItem, (insertByStartDesc x l).Perm (x :: l) := by
  intro l
  induction l with
  | nil => exact List.Perm.refl _
  | cons y ys ih =>
    unfold insertByStartDesc
    by_cases h : y.start_ts < x.start_ts
    · rw [if_pos h]
    · rw [if_neg h]
      exact (List.Perm.cons y ih).trans (List.Perm.swap x y ys)

/-- Inserting preserves the non-increasing order on `start_ts`. -/
theorem insertByStartDesc_pairwise (x : SeedItem) :
    ∀ l : List SeedItem,
      List.Pairwise (fun a b : SeedItem => b.start_ts ≤ a.start_ts) l →
      List.Pairwise (fun a b : SeedItem => b.start_ts ≤ a.start_ts) (insertByStartDesc x l) := by
  intro l
  induction l with
  | nil => exact fun _ => List.pairwise_singleton _ x
  | cons y ys ih =>
    intro hp
    rcases List.pairwise_cons.mp hp with ⟨hy, hys⟩
    unfold insertByStartDesc
    by_cases h : y.start_ts < x.start_ts
    · rw [if_pos h]
      refine List.pairwise_cons.mpr ⟨fun z hz => ?_, hp⟩
      rcases List.mem_cons.mp hz with rfl | hz
      · exact le_of_lt h
      · exact le_trans (hy z hz) (le_of_lt h)
    · rw [if_neg h]
      refine List.pairwise_cons.mpr ⟨fun z hz => ?_, ih hys⟩
      have hz' : z ∈ x :: ys := (insertByStartDesc_perm x ys).mem_iff.mp hz
      rcases List.mem_cons.mp hz' with rfl | hz'
      · exact le_of_not_lt h
      · exact hy z hz'

/-- C7: the item sequence persisted by the seed script and returned by the
list query is ordered by `start_ts` in non-increasing order (newest first) and
is a permutation of the stored collection. -/
theorem list_items_newest_first :
    ∀ stored : List SeedItem,
      List.Pairwise (fun a b : SeedItem => b.start_ts ≤ a.start_ts) (sortByStartDesc stored) ∧
      (sortByStartDesc stored).Perm stored := by
  intro stored
  induction stored with
  | nil => exact ⟨List.Pairwise.nil, List.Perm.refl _⟩
  | cons x l ih =>
    refine ⟨insertByStartDesc_pairwise x (sortByStartDesc l) ih.1, ?_⟩
    exact (insertByStartDesc_perm x (sortByStartDesc l)).trans (List.Perm.cons x ih.2)

/-! ## C3: clip matcher scoring -/

/-- Folding `pickBetter` keeps membership, positivity and dominance of the
running best candidate. -/
theorem foldl_pickBetter_spec (w : Window) :
    ∀ (cs : List Clip) (acc : Option Clip) (c : Clip),
      cs.foldl (pickBetter w) acc = some c →
      (acc = some c ∨ c ∈ cs) ∧
      ((∀ b, acc = some b → 0 < clipOverlap w b) → 0 < clipOverlap w c) ∧
      (∀ b, acc = some b → clipOverlap w b ≤ clipOverlap w c) ∧
      (∀ d ∈ cs, clipOverlap w d ≤ clipOverlap w c ∨ clipOverlap w d ≤ 0) := by
  intro cs
  induction cs with
  | nil =>
    intro acc c hacc
    simp only [List.foldl_nil] at hacc
    subst hacc
    refine ⟨.inl rfl, fun h => h c rfl, fun b hb => ?_, fun d hd => absurd hd (by simp)⟩
    injection hb with hb
    subst hb
    exact le_refl _
  | cons d ds ih =>
    intro acc c hacc
    simp only [List.foldl_cons] at hacc
    obtain ⟨mem1, pos1, dom1, all1⟩ := ih (pickBetter w acc d) c hacc
    by_cases hd : 0 < clipOverlap w d
    · cases acc with
      | none =>
        have hpb : pickBetter w none d = some d := by simp [pickBetter, hd]
        rw [hpb] at mem1 pos1 dom1
        have hpos : 0 < clipOverlap w c := pos1 (fun b hb => by
          injection hb with hb
          subst hb
          exact hd)
        refine ⟨?_, fun _ => hpos, ?_, ?_⟩
        · rcases mem1 with h | h
          · injection h with h
            exact .inr (h ▸ List.mem_cons_self d ds)
          · exact .inr (List.mem_cons_of_mem d h)
        · intro b hb
          cases hb
        · intro x hx
          rcases List.mem_cons.mp hx with rfl | hx
          · exact .inl (dom1 x rfl)
          · exact all1 x hx
      | some b =>
        by_cases hlt : clipOverlap w b < clipOverlap w d
        · have hpb : pickBetter w (some b) d = some d := by simp [pickBetter, hd, hlt]
          rw [hpb] at mem1 pos1 dom1
          have hdc : clipOverlap w d ≤ clipOverlap w c := dom1 d rfl
          refine ⟨?_, fun _ => pos1 (fun x hx => by
              injection hx with hx
              subst hx
              exact hd), fun x hx => ?_, fun x hx => ?_⟩
          · rcases mem1 with h | h
            · injection h with h
              exact .inr (h ▸ List.mem_cons_self d ds)
            · exact .inr (List.mem_cons_of_mem d h)
          · injection hx with hx
            subst hx
            exact le_trans (le_of_lt hlt) hdc
          · rcases List.mem_cons.mp hx with rfl | hx
            · exact .inl hdc
            · exact all1 x hx
        · have hpb : pickBetter w (some b) d = some b := by simp [pickBetter, hd, hlt]
          rw [hpb] at mem1 pos1 dom1
          refine ⟨?_, fun hpre => pos1 (fun x hx => hpre x hx), fun x hx => dom1 x hx,
            fun x hx => ?_⟩
          · rcases mem1 with h | h
            · exact .inl h
            · exact .inr (List.mem_cons_of_mem d h)
          · rcases List.mem_cons.mp hx with rfl | hx
            · exact .inl (le_trans (le_of_not_lt hlt) (dom1 b rfl))
            · exact all1 x hx
    · have hpb : pickBetter w acc d = acc := by simp [pickBetter, hd]
      rw [hpb] at mem1 pos1 dom1
      refine ⟨?_, pos1, dom1, fun x hx => ?_⟩
      · rcases mem1 with h | h
        · exact .inl h
        · exact .inr (List.mem_cons_of_mem d h)
      · rcases List.mem_cons.mp hx with rfl | hx
        · exact .inr (le_of_not_lt hd)
        · exact all1 x hx

/-- C3 (amended): the Clip Matcher selects a candidate with the largest
positive overlap — any selected candidate overlaps the window positively, is
drawn from the list, and dominates every candidate's overlap; and for two
candidates, one fully inside the window and one only partially overlapping,
the fully-inside one is chosen regardless of order whenever its overlap (its
own duration) strictly exceeds the partial candidate's overlap. -/
theorem clip_matcher_overlap_selection :
    (∀ (w : Window) (cs : List Clip) (c : Clip), bestByOverlap w cs = some c →
      0 < clipOverlap w c ∧ c ∈ cs ∧ ∀ d ∈ cs, clipOverlap w d ≤ clipOverlap w c) ∧
    (∀ (w : Window) (a b : Clip), clipInsideWindow w a → clipPartialOverlap w b →
      clipOverlap w b < clipOverlap w a →
      bestByOverlap w [a, b] = some a ∧ bestByOverlap w [b, a] = some a) := by
  constructor
  · intro w cs c hc
    obtain ⟨mem1, pos1, -, all1⟩ := foldl_pickBetter_spec w cs none c hc
    have hpos : 0 < clipOverlap w c := pos1 (fun b hb => Option.noConfusion hb)
    refine ⟨hpos, ?_, fun d hd => ?_⟩
    · rcases mem1 with h | h
      · exact Option.noConfusion h
      · exact h
    · rcases all1 d hd with h | h
      · exact h
      · exact le_trans h (le_of_lt hpos)
  · intro w a b _ hb hgt
    have ha : 0 < clipOverlap w a := lt_trans hb.1 hgt
    constructor
    · show pickBetter w (pickBetter w none a) b = some a
      rw [show pickBetter w none a = some a from by simp [pickBetter, ha]]
      simp only [pickBetter]
      rw [if_pos hb.1, if_neg (not_lt_of_gt hgt)]
    · show pickBetter w (pickBetter w none b) a = some a
      rw [show pickBetter w none b = some b from by simp [pickBetter, hb.1]]
      simp only [pickBetter]
      rw [if_pos ha, if_pos hgt]

/-- Counterexample to C3 as stated: in the window `[0, 100]`, the clip
`[10, 20]` lies fully inside while `[-50, 90]` only partially overlaps, yet
the partial clip's 90 s overlap beats the inside clip's 10 s, so the partial
candidate wins in both orders. -/
theorem clip_matcher_order_counterexample :
    clipInsideWindow ⟨0, 100⟩ ⟨10, 10⟩ ∧
    clipPartialOverlap ⟨0, 100⟩ ⟨-50, 140⟩ ∧
    bestByOverlap ⟨0, 100⟩ [⟨10, 10⟩, ⟨-50, 140⟩] = some ⟨-50, 140⟩ ∧
    bestByOverlap ⟨0, 100⟩ [⟨-50, 140⟩, ⟨10, 10⟩] = some ⟨-50, 140⟩ :=
  ⟨⟨by decide, by decide⟩,
   ⟨by decide, fun h => absurd h.1 (by decide)⟩,
   by decide, by decide⟩

/-- Witness: with window `[0, 100]`, the inside clip `[10, 20]` beats the
partial clip `[-50, 5]` (overlap 10 against 5) in both discovery orders. -/
theorem clip_matcher_overlap_selection_witness :
    bestByOverlap ⟨0, 100⟩ [⟨10, 10⟩, ⟨-50, 55⟩] = some ⟨10, 10⟩ ∧
    bestByOverlap ⟨0, 100⟩ [⟨-50, 55⟩, ⟨10, 10⟩] = some ⟨10, 10⟩ :=
  clip_matcher_overlap_selection.2 ⟨0, 100⟩ ⟨10, 10⟩ ⟨-50, 55⟩
    ⟨by decide, by decide⟩
    ⟨by decide, fun h => absurd h.1 (by decide)⟩
    (by decide)

/-! ## C5: duration token and media title format -/

/-- C5: the duration-token generator produces, for every nonnegative number of
seconds, the string `h:MM:SS` — minutes and seconds two-digit zero-padded,
the hour unpadded (one character below ten) — and the composed catalog title
is exactly the `HH:MM:SS` start time, the duration token and the label title
separated by single spaces. -/
theorem duration_token_and_title_format :
    (∀ n : Nat, ∃ h m s : Nat,
      n = 3600 * h + 60 * m + s ∧ m < 60 ∧ s < 60 ∧
      duration_token n = Nat.repr h ++ ":" ++ pad2 m ++ ":" ++ pad2 s ∧
      (pad2 m).length = 2 ∧ (pad2 s).length = 2 ∧
      (h < 10 → (Nat.repr h).length = 1)) ∧
    (∀ (h m s d : Nat) (label : String),
      media_title h m s d label =
        startTimeToken h m s ++ " " ++ duration_token d ++ " " ++ label_title_of label) ∧
    (∀ h m s : Nat, h < 100 → m < 100 → s < 100 → (startTimeToken h m s).length = 8) := by
  refine ⟨fun n => ?_, fun h m s d label => rfl, fun h m s hh hm hs => ?_⟩
  · refine ⟨n / 3600, n % 3600 / 60, n % 60, by omega, by omega, by omega, rfl, ?_, ?_, ?_⟩
    · exact pad2_length _ (by omega)
    · exact pad2_length _ (by omega)
    · exact fun hlt => repr_length_lt10 _ hlt
  · simp only [startTimeToken, String.length_append]
    rw [pad2_length h hh, pad2_length m hm, pad2_length s hs]
    rfl

/-- Witness: the catalog entry `07:05:27 0:00:17 Person` — start token of
length 8, and the title composed from its three tokens. -/
theorem duration_token_and_title_format_witness :
    (startTimeToken 7 5 27).length = 8 ∧
    media_title 7 5 27 17 "person" =
      startTimeToken 7 5 27 ++ " " ++ duration_token 17 ++ " " ++ label_title_of "person" :=
  ⟨duration_token_and_title_format.2.2 7 5 27 (by decide) (by decide) (by decide),
   duration_token_and_title_format.2.1 7 5 27 17 "person"⟩

/-! ## C4: catalog path shape -/

/-- Splitting a list that opens with a separator-free chunk followed by the
separator yields that chunk (after the accumulator) as one component. -/
theorem splitOnCharAux_sep_cons (sep : Char) :
    ∀ (xs : List Char), (∀ c ∈ xs, c ≠ sep) →
      ∀ (rest acc : List Char),
        splitOnCharAux sep (xs ++ sep :: rest) acc =
          (acc.reverse ++ xs) :: splitOnCharAux sep rest [] := by
  intro xs
  induction xs with
  | nil =>
    intro _ rest acc
    simp [splitOnCharAux]
  | cons c cs ih =>
    intro hxs rest acc
    have hc : c ≠ sep := hxs c (List.mem_cons_self c cs)
    have step : splitOnCharAux sep ((c :: cs) ++ sep :: rest) acc =
        splitOnCharAux sep (cs ++ sep :: rest) (c :: acc) := by
      simp only [List.cons_append, splitOnCharAux, if_neg hc]
      rfl
    rw [step, ih (fun x hx => hxs x (List.mem_cons_of_mem c hx)) rest (c :: acc)]
    simp

/-- Splitting a separator-free list yields a single component. -/
theorem splitOnCharAux_no_sep (sep : Char) :
    ∀ (xs : List Char), (∀ c ∈ xs, c ≠ sep) →
      ∀ acc, splitOnCharAux sep xs acc = [acc.reverse ++ xs] := by
  intro xs
  induction xs with
  | nil =>
    intro _ acc
    simp [splitOnCharAux]
  | cons c cs ih =>
    intro hxs acc
    have hc : c ≠ sep := hxs c (List.mem_cons_self c cs)
    simp only [splitOnCharAux, if_neg hc]
    rw [ih (fun x hx => hxs x (List.mem_cons_of_mem c hx)) (c :: acc)]
    simp

/-- The label folder always comes from the fixed display-name table. -/
theorem labelTitleByLabel_mem (label : String) :
    labelTitleByLabel label ∈ (["Person", "Pet", "Vehicle", "Motion", "Visitor"] : List String) := by
  unfold labelTitleByLabel
  split_ifs <;> simp

/-- The label folder never contains the path separator. -/
theorem labelTitleByLabel_slashFree (label : String) :
    ∀ c ∈ (labelTitleByLabel label).data, c ≠ '/' := by
  have h := labelTitleByLabel_mem label
  simp only [List.mem_cons, List.not_mem_nil, or_false] at h
  rcases h with h | h | h | h | h <;> rw [h] <;> decide

/-- The hyphenated date component never contains the path separator. -/
theorem dateComponent_slashFree (year month day : Nat) :
    ∀ c ∈ (Nat.repr year ++ "-" ++ pad2 month ++ "-" ++ pad2 day).data, c ≠ '/' := by
  intro c hc
  simp only [String.data_append, List.mem_append, or_assoc] at hc
  have hdash : c ∈ ("-" : String).data → c ≠ '/' := by
    intro h
    rcases List.mem_singleton.mp h with rfl
    decide
  have hdigit : ∀ n : Nat, c ∈ (Nat.repr n).data → c ≠ '/' := by
    intro n h
    obtain ⟨d0, hd0, rfl⟩ := repr_chars n c h
    exact digitChar_ne_slash d0 hd0
  have hpad : ∀ n : Nat, c ∈ (pad2 n).data → c ≠ '/' := by
    intro n h
    obtain ⟨d0, hd0, rfl⟩ := pad2_chars n c h
    exact digitChar_ne_slash d0 hd0
  rcases hc with h | h | h | h | h
  · exact hdigit year h
  · exact hdash h
  · exact hpad month h
  · exact hdash h
  · exact hpad day h

/-- C4 (amended): every catalog display path the card constructs has the
fixed shape `/Reolink/<camera>/Low Resolution/<year>-<MM>-<DD>/<label_folder>`
— one leading `/Reolink` component, the resolution tier literally
`Low Resolution` (no telephoto or high-resolution tier is ever produced), the
date as a single zero-padded component, and the label folder drawn from the
fixed display-name table for the normalized label. -/
theorem media_folder_path_shape (year month day : Nat) (label cameraName : String)
    (hcam : ∀ c ∈ (cameraOrDefault cameraName).data, c ≠ '/') :
    pathComponents (mediaFolderDisplayPath year month day label cameraName) =
      ["", "Reolink", cameraOrDefault cameraName, "Low Resolution",
        Nat.repr year ++ "-" ++ pad2 month ++ "-" ++ pad2 day,
        labelTitleByLabel (normalizeCardLabel label)] ∧
    labelTitleByLabel (normalizeCardLabel label) ∈
      (["Person", "Pet", "Vehicle", "Motion", "Visitor"] : List String) := by
  refine ⟨?_, labelTitleByLabel_mem _⟩
  have hA : ("/Reolink/" : String).data = '/' :: ("Reolink".data ++ ['/']) := rfl
  have hB : ("/Low Resolution/" : String).data = '/' :: ("Low Resolution".data ++ ['/']) := rfl
  have hC : ("/" : String).data = ['/'] := rfl
  have hdata : (mediaFolderDisplayPath year month day label cameraName).data =
      [] ++ '/' :: ("Reolink".data ++ '/' ::
        ((cameraOrDefault cameraName).data ++ '/' :: ("Low Resolution".data ++ '/' ::
          ((Nat.repr year ++ "-" ++ pad2 month ++ "-" ++ pad2 day).data ++ '/' ::
            (labelTitleByLabel (normalizeCardLabel label)).data)))) := by
    simp only [mediaFolderDisplayPath, String.data_append, hA, hB, hC]
    simp [List.append_assoc]
  unfold pathComponents
  rw [hdata]
  rw [splitOnCharAux_sep_cons '/' [] (by simp) _ []]
  rw [splitOnCharAux_sep_cons '/' ("Reolink".data) (by decide) _ []]
  rw [splitOnCharAux_sep_cons '/' ((cameraOrDefault cameraName).data) hcam _ []]
  rw [splitOnCharAux_sep_cons '/' ("Low Resolution".data) (by decide) _ []]
  rw [splitOnCharAux_sep_cons '/'
    ((Nat.repr year ++ "-" ++ pad2 month ++ "-" ++ pad2 day).data)
    (dateComponent_slashFree year month day) _ []]
  rw [splitOnCharAux_no_sep '/' ((labelTitleByLabel (normalizeCardLabel label)).data)
    (labelTitleByLabel_slashFree _) []]
  simp only [List.reverse_nil, List.nil_append]
  rfl

/-- Counterexample to C4 as stated: for the item at 2026-02-17 on camera
`Deurbel` with label `person`, the constructed path keeps the date as one
hyphenated component under a leading `/Reolink`, so it does not match the
spec's `<camera>/<tier>/<year>/<month>/<day>/<label_folder>` shape (in either
the unpadded or the padded reading). -/
theorem media_folder_path_counterexample :
    mediaFolderDisplayPath 2026 2 17 "person" "Deurbel" =
      "/Reolink/Deurbel/Low Resolution/2026-02-17/Person" ∧
    pathComponents (mediaFolderDisplayPath 2026 2 17 "person" "Deurbel") =
      ["", "Reolink", "Deurbel", "Low Resolution", "2026-02-17", "Person"] ∧
    mediaFolderDisplayPath 2026 2 17 "person" "Deurbel" ≠
      specCatalogPathShape "Deurbel" "Low Resolution" 2026 2 17 "Person" ∧
    mediaFolderDisplayPath 2026 2 17 "person" "Deurbel" ≠
      "Deurbel/Low Resolution/2026/02/17/Person" :=
  ⟨by decide, by decide, by decide, by decide⟩

/-- Witness: the amended shape at the concrete 2026-02-17 `Deurbel` person
item. -/
theorem media_folder_path_shape_witness :
    pathComponents (mediaFolderDisplayPath 2026 2 17 "person" "Deurbel") =
      ["", "Reolink", "Deurbel", "Low Resolution", "2026-02-17", "Person"] ∧
    ("Person" : String) ∈ (["Person", "Pet", "Vehicle", "Motion", "Visitor"] : List String) :=
  media_folder_path_shape 2026 2 17 "person" "Deurbel" (by decide)

/-! ## C10: download filename safety -/

/-- `pad2` output contains no path separator or control character. -/
theorem pad2_not_pathControl (n : Nat) :
    ∀ c ∈ (pad2 n).data, isPathOrControlChar c = false := by
  intro c hc
  obtain ⟨d, hd, rfl⟩ := pad2_chars n c hc
  exact digitChar_not_pathControl d hd

/-- `Nat.repr` output contains no path separator or control character. -/
theorem repr_not_pathControl (n : Nat) :
    ∀ c ∈ (Nat.repr n).data, isPathOrControlChar c = false := by
  intro c hc
  obtain ⟨d, hd, rfl⟩ := repr_chars n c hc
  exact digitChar_not_pathControl d hd

/-- C10 (amended): for every item whose normalized label (with the
`detection` fallback) contains no path separator or control character — in
particular every supported label — the filename offered by
`_recordingFilename` either passes `_isPlausibleFilename` or is the generated
`YYYYMMDD_HHMMSS_<label>.mp4` pattern, which then contains no path separator
or control character. -/
theorem recordingFilename_safe (it : CardItem)
    (hl : ∀ c ∈ (filenameLabel it.label).data, isPathOrControlChar c = false) :
    isPlausibleFilename (recordingFilename it) = true ∨
    (recordingFilename it = generatedFilename it ∧
      ∀ c ∈ (recordingFilename it).data, isPathOrControlChar c = false) := by
  have hgen : ∀ c ∈ (generatedFilename it).data, isPathOrControlChar c = false := by
    intro c hc
    simp only [generatedFilename, String.data_append, List.mem_append, or_assoc] at hc
    rcases hc with h | h | h | h | h | h | h | h | h | h | h
    · exact repr_not_pathControl it.year c h
    · exact pad2_not_pathControl it.month c h
    · exact pad2_not_pathControl it.day c h
    · rcases List.mem_singleton.mp h with rfl
      decide
    · exact pad2_not_pathControl it.hour c h
    · exact pad2_not_pathControl it.minute c h
    · exact pad2_not_pathControl it.second c h
    · rcases List.mem_singleton.mp h with rfl
      decide
    · exact hl c h
    · rcases List.mem_singleton.mp h with rfl
      decide
    · have hx : c ∈ ("mp4" : String).data := by
        unfold fileExtensionForLabel at h
        split_ifs at h <;> exact h
      simp only [List.mem_cons, List.not_mem_nil, or_false] at hx
      rcases hx with rfl | rfl | rfl <;> decide
  obtain ⟨lu, yy, mo, dd, hh, mi, ss, lab⟩ := it
  cases lu with
  | none => exact .inr ⟨rfl, hgen⟩
  | some u =>
    by_cases hguard : u ≠ "" ∧ isPlausibleFilename (urlFilename u) = true
    · left
      simp only [recordingFilename]
      rw [if_pos hguard]
      exact hguard.2
    · right
      simp only [recordingFilename]
      rw [if_neg hguard]
      exact ⟨rfl, hgen⟩

/-- Counterexample to C10 as stated: an item whose raw label is `a/b` (no
recording URL) yields the generated filename
`20260217_120000_a/b.mp4`, which contains a path separator and fails
`_isPlausibleFilename`. -/
theorem recordingFilename_unsafe_label_counterexample :
    recordingFilename ⟨none, 2026, 2, 17, 12, 0, 0, "a/b"⟩ = "20260217_120000_a/b.mp4" ∧
    isPlausibleFilename "20260217_120000_a/b.mp4" = false ∧
    '/' ∈ ("20260217_120000_a/b.mp4" : String).data :=
  ⟨by decide, by decide, by decide⟩

/-- Witness: the amended safety statement at a concrete `person` item without
a recording URL. -/
theorem recordingFilename_safe_witness :
    isPlausibleFilename (recordingFilename ⟨none, 2026, 2, 17, 12, 0, 0, "person"⟩) = true ∨
    (recordingFilename ⟨none, 2026, 2, 17, 12, 0, 0, "person"⟩ =
        generatedFilename ⟨none, 2026, 2, 17, 12, 0, 0, "person"⟩ ∧
      ∀ c ∈ (recordingFilename ⟨none, 2026, 2, 17, 12, 0, 0, "person"⟩).data,
        isPathOrControlChar c = false) :=
  recordingFilename_safe ⟨none, 2026, 2, 17, 12, 0, 0, "person"⟩ (by decide)

end ReolinkFeed
